import Mathlib

/-!
# Verification of the representation-similarity core (CKA / CCA demo)

Shallow embedding of the numerical core of `representation_similarity/Demo.ipynb`:
kernel construction (`gram_linear`, `gram_rbf`), Gram-matrix centering
(`center_gram`, biased and unbiased), Gram-based CKA (`cka`), feature-space
linear CKA with its shared debiasing helper, and CCA.

Matrices are embedded as `Matrix (Fin n) (Fin d) ℝ` and the floating-point
arithmetic of the source is idealized as exact real arithmetic.  The fatal
input error raised by `center_gram` on a non-symmetric input is embedded as
`Except.error` carrying the source's message string.
-/

open scoped BigOperators
open Matrix

noncomputable section

namespace RepSim

/-- Column means of a feature matrix: `np.mean(features, 0)`. -/
def colMean {n d : ℕ} (X : Matrix (Fin n) (Fin d) ℝ) : Fin d → ℝ :=
  fun k => (∑ i, X i k) / n

/-- Column-centered features: `features - np.mean(features, 0, keepdims=True)`. -/
def centerFeatures {n d : ℕ} (X : Matrix (Fin n) (Fin d) ℝ) :
    Matrix (Fin n) (Fin d) ℝ :=
  fun i k => X i k - colMean X k

/-- Linear kernel Gram matrix: `gram_linear(x) = x.dot(x.T)`. -/
def gram_linear {n d : ℕ} (X : Matrix (Fin n) (Fin d) ℝ) :
    Matrix (Fin n) (Fin n) ℝ :=
  X * Xᵀ

/-- Sorted copy of a list of reals (ascending), as `np.sort` on the
flattened array inside `np.median`. -/
def sortedList (l : List ℝ) : List ℝ :=
  l.insertionSort (· ≤ ·)

/-- Median of the values in a list, as `np.median`: middle element of the sorted list for
odd length, average of the two middle elements for even length. -/
def npMedian (l : List ℝ) : ℝ :=
  let s := sortedList l
  let k := l.length
  if k % 2 = 1 then s.getD (k / 2) 0
  else (s.getD (k / 2 - 1) 0 + s.getD (k / 2) 0) / 2

/-- All `n²` entries of a square matrix, flattened row-major as `np.ravel`. -/
def entriesList {n : ℕ} (M : Matrix (Fin n) (Fin n) ℝ) : List ℝ :=
  (List.finRange n).flatMap fun i => (List.finRange n).map fun j => M i j

/-- RBF kernel Gram matrix `gram_rbf(x, threshold)`: squared distances from the Gram matrix, bandwidth
from the median squared distance, entrywise exponential. -/
def gram_rbf {n d : ℕ} (X : Matrix (Fin n) (Fin d) ℝ) (threshold : ℝ) :
    Matrix (Fin n) (Fin n) ℝ :=
  let dot_products := X * Xᵀ
  let sq_norms : Fin n → ℝ := fun i => dot_products i i
  let sq_distances : Matrix (Fin n) (Fin n) ℝ :=
    fun i j => -2 * dot_products i j + sq_norms i + sq_norms j
  let sq_median_distance := npMedian (entriesList sq_distances)
  fun i j => Real.exp (-sq_distances i j / (2 * threshold ^ 2 * sq_median_distance))

/-- Biased centering path of `center_gram` (the `else` branch):
`means = np.mean(gram, 0)`, `means -= np.mean(means) / 2`,
`gram -= means[:, None]`, `gram -= means[None, :]`. -/
def centerGramBiased {n : ℕ} (G : Matrix (Fin n) (Fin n) ℝ) :
    Matrix (Fin n) (Fin n) ℝ :=
  let means : Fin n → ℝ := fun j => (∑ i, G i j) / n
  let means2 : Fin n → ℝ := fun j => means j - ((∑ j', means j') / n) / 2
  fun i j => G i j - means2 i - means2 j

/-- Unbiased (U-statistic) centering path of `center_gram` (the `if` branch):
zero the diagonal, `means = np.sum(gram, 0) / (n - 2)`,
`means -= np.sum(means) / (2 * (n - 1))`, subtract `means` from rows and
columns, re-zero the diagonal. -/
def centerGramUnbiased {n : ℕ} (G : Matrix (Fin n) (Fin n) ℝ) :
    Matrix (Fin n) (Fin n) ℝ :=
  let G1 : Matrix (Fin n) (Fin n) ℝ := fun i j => if i = j then 0 else G i j
  let means : Fin n → ℝ := fun j => (∑ i, G1 i j) / ((n : ℝ) - 2)
  let means2 : Fin n → ℝ := fun j => means j - (∑ j', means j') / (2 * ((n : ℝ) - 1))
  let G2 : Matrix (Fin n) (Fin n) ℝ := fun i j => G1 i j - means2 i - means2 j
  fun i j => if i = j then 0 else G2 i j

/-- The message of the `ValueError` raised on a non-symmetric input. -/
def notSymmetricMsg : String := "Input must be a symmetric matrix."

/-- Gram centering `center_gram(gram, unbiased)`: raise on a non-symmetric input, otherwise
center with the unbiased or biased formula. -/
def center_gram {n : ℕ} (G : Matrix (Fin n) (Fin n) ℝ) (unbiased : Bool) :
    Except String (Matrix (Fin n) (Fin n) ℝ) :=
  if Gᵀ = G then
    Except.ok (if unbiased then centerGramUnbiased G else centerGramBiased G)
  else
    Except.error notSymmetricMsg

/-- Frobenius inner product: `a.ravel().dot(b.ravel())`. -/
def frobInner {a b : ℕ} (A B : Matrix (Fin a) (Fin b) ℝ) : ℝ :=
  ∑ i, ∑ j, A i j * B i j

/-- Sum of squared entries of a matrix. -/
def frobNormSq {a b : ℕ} (A : Matrix (Fin a) (Fin b) ℝ) : ℝ :=
  frobInner A A

/-- Frobenius norm of a matrix, the default matrix norm of `np.linalg.norm`. -/
def frobNorm {a b : ℕ} (A : Matrix (Fin a) (Fin b) ℝ) : ℝ :=
  Real.sqrt (frobNormSq A)

/-- Gram-based CKA `cka(gram_x, gram_y, debiased)`: center both Gram matrices with the same
flag, then divide the Frobenius inner product of the centered matrices by the
product of their Frobenius norms. -/
def cka {n : ℕ} (gram_x gram_y : Matrix (Fin n) (Fin n) ℝ) (debiased : Bool) :
    Except String ℝ := do
  let cx ← center_gram gram_x debiased
  let cy ← center_gram gram_y debiased
  let scaled_hsic := frobInner cx cy
  let normalization_x := frobNorm cx
  let normalization_y := frobNorm cy
  return scaled_hsic / (normalization_x * normalization_y)

/-- Shared debiasing helper `_debiased_dot_product_similarity_helper(xty,
sum_squared_rows_x, sum_squared_rows_y, squared_norm_x, squared_norm_y, n)`. -/
def debiased_dot_product_similarity_helper {n : ℕ}
    (xty : ℝ) (sum_squared_rows_x sum_squared_rows_y : Fin n → ℝ)
    (squared_norm_x squared_norm_y : ℝ) (nn : ℕ) : ℝ :=
  xty - (nn : ℝ) / ((nn : ℝ) - 2) *
      (∑ i, sum_squared_rows_x i * sum_squared_rows_y i) +
    squared_norm_x * squared_norm_y / (((nn : ℝ) - 1) * ((nn : ℝ) - 2))

/-- Per-example sum of squared features:
`np.einsum('ij,ij->i', features, features)`. -/
def sumSquaredRows {n d : ℕ} (X : Matrix (Fin n) (Fin d) ℝ) : Fin n → ℝ :=
  fun i => ∑ k, X i k * X i k

/-- Feature-space linear CKA `feature_space_linear_cka(features_x, features_y, debiased)`. -/
def feature_space_linear_cka {n dx dy : ℕ}
    (features_x : Matrix (Fin n) (Fin dx) ℝ)
    (features_y : Matrix (Fin n) (Fin dy) ℝ) (debiased : Bool) : ℝ :=
  let fx := centerFeatures features_x
  let fy := centerFeatures features_y
  let dot_product_similarity := frobNorm (fxᵀ * fy) ^ 2
  let normalization_x := frobNorm (fxᵀ * fx)
  let normalization_y := frobNorm (fyᵀ * fy)
  if debiased then
    let sum_squared_rows_x := sumSquaredRows fx
    let sum_squared_rows_y := sumSquaredRows fy
    let squared_norm_x := ∑ i, sum_squared_rows_x i
    let squared_norm_y := ∑ i, sum_squared_rows_y i
    let dps := debiased_dot_product_similarity_helper dot_product_similarity
      sum_squared_rows_x sum_squared_rows_y squared_norm_x squared_norm_y n
    let nx := Real.sqrt (debiased_dot_product_similarity_helper
      (normalization_x ^ 2) sum_squared_rows_x sum_squared_rows_x
      squared_norm_x squared_norm_x n)
    let ny := Real.sqrt (debiased_dot_product_similarity_helper
      (normalization_y ^ 2) sum_squared_rows_y sum_squared_rows_y
      squared_norm_y squared_norm_y n)
    dps / (nx * ny)
  else
    dot_product_similarity / (normalization_x * normalization_y)

/-- Columns of `np.linalg.qr`'s Q factor, embedded as the Gram-Schmidt
orthonormalization of the column sequence of the input. -/
def gsCols {n d : ℕ} (X : Matrix (Fin n) (Fin d) ℝ) :
    Fin d → EuclideanSpace ℝ (Fin n) :=
  letI : WellFoundedLT (Fin d) := inferInstance
  gramSchmidtNormed ℝ
    (fun k : Fin d => (WithLp.equiv 2 (Fin n → ℝ)).symm (fun i' => X i' k))

/-- Orthonormalization of the columns, embedding `np.linalg.qr`'s Q factor. -/
def qrQ {n d : ℕ} (X : Matrix (Fin n) (Fin d) ℝ) : Matrix (Fin n) (Fin d) ℝ :=
  fun i j => WithLp.equiv 2 (Fin n → ℝ) (gsCols X j) i

/-- Mean squared CCA correlation `cca(features_x, features_y)`: squared Frobenius
norm of `qx.T.dot(qy)` divided by the smaller feature count. -/
def cca {n dx dy : ℕ} (features_x : Matrix (Fin n) (Fin dx) ℝ)
    (features_y : Matrix (Fin n) (Fin dy) ℝ) : ℝ :=
  frobNorm ((qrQ features_x)ᵀ * qrQ features_y) ^ 2 / (min dx dy : ℕ)

/-! ## Basic lemmas -/

lemma gram_linear_isSymm {n d : ℕ} (X : Matrix (Fin n) (Fin d) ℝ) :
    (gram_linear X)ᵀ = gram_linear X := by
  simp [gram_linear, Matrix.transpose_mul]

lemma symm_apply {n : ℕ} {G : Matrix (Fin n) (Fin n) ℝ} (hG : Gᵀ = G)
    (i j : Fin n) : G j i = G i j :=
  congrFun (congrFun hG i) j

/-! ## C2: the unbiased centering step sequence -/

/-- Unbiased centering written as the explicit step sequence stated in the
spec: zero the diagonal, column sums divided by `N - 2`, subtract
`sum(means) / (2 (N - 1))` from the means, subtract the means from rows and
columns, zero the diagonal again. -/
def centerGramUnbiasedSpec {n : ℕ} (G : Matrix (Fin n) (Fin n) ℝ) :
    Matrix (Fin n) (Fin n) ℝ :=
  let Gz : Matrix (Fin n) (Fin n) ℝ := fun i j => if i = j then 0 else G i j
  let means : Fin n → ℝ := fun j => (∑ i, Gz i j) / ((n : ℝ) - 2)
  let adjusted : Fin n → ℝ :=
    fun j => means j - (∑ j', means j') / (2 * ((n : ℝ) - 1))
  let subtracted : Matrix (Fin n) (Fin n) ℝ :=
    fun i j => Gz i j - adjusted i - adjusted j
  fun i j => if i = j then 0 else subtracted i j

/-- C2: for a symmetric `N × N` matrix `G` with `N ≥ 3`,
`center_gram(G, unbiased := true)` returns exactly the matrix obtained by
zeroing the diagonal, computing `means[j] = (∑ i, G i j) / (N - 2)`,
subtracting `(∑ means) / (2 (N - 1))` from every entry of `means`,
subtracting `means` from every row and every column, and zeroing the
diagonal again. -/
theorem center_gram_unbiased_steps {n : ℕ} (G : Matrix (Fin n) (Fin n) ℝ)
    (hG : Gᵀ = G) (_hn : 3 ≤ n) :
    center_gram G true = Except.ok (centerGramUnbiasedSpec G) := by
  unfold center_gram
  rw [if_pos hG]
  rfl

/-- Witness for C2 at the concrete symmetric Gram matrix of the single
column `(1, 0, 2)`. -/
theorem center_gram_unbiased_steps_witness :
    (gram_linear !![(1 : ℝ); 0; 2])ᵀ = gram_linear !![(1 : ℝ); 0; 2] ∧
    3 ≤ 3 ∧
    center_gram (gram_linear !![(1 : ℝ); 0; 2]) true =
      Except.ok (centerGramUnbiasedSpec (gram_linear !![(1 : ℝ); 0; 2])) :=
  ⟨gram_linear_isSymm _, Nat.le_refl 3,
    center_gram_unbiased_steps _ (gram_linear_isSymm _) (Nat.le_refl 3)⟩

/-! ## C3: the non-symmetric input error -/

/-- C3: `center_gram` returns the fatal non-symmetric-input error exactly when
its input is not symmetric, and on a symmetric input it returns the centering
of the input matrix itself (no silent symmetrization or repair). -/
theorem center_gram_error_iff_not_symmetric {n : ℕ}
    (G : Matrix (Fin n) (Fin n) ℝ) (u : Bool) :
    (center_gram G u = Except.error notSymmetricMsg ↔ ¬ Gᵀ = G) ∧
    (Gᵀ = G → center_gram G u =
      Except.ok (if u then centerGramUnbiased G else centerGramBiased G)) := by
  by_cases hsym : Gᵀ = G
  · refine ⟨⟨fun h => ?_, fun h => absurd hsym h⟩,
      fun _ => by unfold center_gram; rw [if_pos hsym]⟩
    unfold center_gram at h
    rw [if_pos hsym] at h
    exact Except.noConfusion h
  · refine ⟨⟨fun _ => hsym, fun _ => by unfold center_gram; rw [if_neg hsym]⟩,
      fun h => absurd h hsym⟩

/-- Witness for C3: a concrete non-symmetric matrix is rejected with the
error, and a concrete symmetric Gram matrix is centered as given. -/
theorem center_gram_error_iff_not_symmetric_witness :
    (¬ (!![(0 : ℝ), 1; 0, 0])ᵀ = !![(0 : ℝ), 1; 0, 0] ∧
      center_gram !![(0 : ℝ), 1; 0, 0] false = Except.error notSymmetricMsg) ∧
    ((gram_linear !![(1 : ℝ); 0; 2])ᵀ = gram_linear !![(1 : ℝ); 0; 2] ∧
      center_gram (gram_linear !![(1 : ℝ); 0; 2]) false =
        Except.ok (if false then centerGramUnbiased (gram_linear !![(1 : ℝ); 0; 2])
          else centerGramBiased (gram_linear !![(1 : ℝ); 0; 2]))) := by
  have hns : ¬ (!![(0 : ℝ), 1; 0, 0])ᵀ = !![(0 : ℝ), 1; 0, 0] := by
    intro h
    have h01 := congrFun (congrFun h 0) 1
    simp [Matrix.transpose_apply] at h01
  exact ⟨⟨hns, (center_gram_error_iff_not_symmetric _ false).1.mpr hns⟩,
    ⟨gram_linear_isSymm _,
      (center_gram_error_iff_not_symmetric _ false).2 (gram_linear_isSymm _)⟩⟩

/-! ## C9: centering preserves symmetry -/

/-- C9: for a symmetric input (with `N ≥ 3` in the unbiased mode), any matrix
successfully returned by `center_gram` is itself symmetric, in both modes. -/
theorem center_gram_result_symm {n : ℕ} (G C : Matrix (Fin n) (Fin n) ℝ)
    (u : Bool) (hG : Gᵀ = G) (hn : u = true → 3 ≤ n)
    (hC : center_gram G u = Except.ok C) : Cᵀ = C := by
  unfold center_gram at hC
  rw [if_pos hG] at hC
  injection hC with hC
  cases u with
  | false =>
    have hC' : centerGramBiased G = C := hC
    subst hC'
    ext i j
    simp only [Matrix.transpose_apply, centerGramBiased]
    rw [symm_apply hG i j]
    ring
  | true =>
    have hC' : centerGramUnbiased G = C := hC
    subst hC'
    ext i j
    simp only [Matrix.transpose_apply, centerGramUnbiased]
    by_cases hij : i = j
    · subst hij
      rfl
    · rw [if_neg hij, if_neg (fun h => hij h.symm)]
      rw [if_neg hij, if_neg (fun h => hij h.symm)]
      rw [symm_apply hG i j]
      ring

/-- Witness for C9 at the Gram matrix of the column `(1, 0, 2)` in unbiased
mode. -/
theorem center_gram_result_symm_witness :
    (gram_linear !![(1 : ℝ); 0; 2])ᵀ = gram_linear !![(1 : ℝ); 0; 2] ∧
    (centerGramUnbiased (gram_linear !![(1 : ℝ); 0; 2]))ᵀ =
      centerGramUnbiased (gram_linear !![(1 : ℝ); 0; 2]) := by
  have hok : center_gram (gram_linear !![(1 : ℝ); 0; 2]) true =
      Except.ok (centerGramUnbiased (gram_linear !![(1 : ℝ); 0; 2])) := by
    unfold center_gram
    rw [if_pos (gram_linear_isSymm _)]
    rfl
  exact ⟨gram_linear_isSymm _,
    center_gram_result_symm _ _ true (gram_linear_isSymm _)
      (fun _ => Nat.le_refl 3) hok⟩

/-! ## C4: the shared debiasing helper and its three uses -/

/-- C4: the debiased correction of `feature_space_linear_cka` is the single
shared helper, which returns exactly
`raw - n/(n-2) * (ssr_x . ssr_y) + sq_norm_x * sq_norm_y / ((n-1)(n-2))`;
`ssr` is the per-example sum of squared column-centered features, `sq_norm`
its total; the helper is applied to the cross term and to both
self-normalizations, each self-normalization being the square root of the
corrected value. -/
theorem feature_space_linear_cka_debiased_structure {n dx dy : ℕ}
    (X : Matrix (Fin n) (Fin dx) ℝ) (Y : Matrix (Fin n) (Fin dy) ℝ) :
    (∀ (raw : ℝ) (ssx ssy : Fin n → ℝ) (qx qy : ℝ),
      debiased_dot_product_similarity_helper raw ssx ssy qx qy n =
        raw - (n : ℝ) / ((n : ℝ) - 2) * (∑ i, ssx i * ssy i) +
          qx * qy / (((n : ℝ) - 1) * ((n : ℝ) - 2))) ∧
    (∀ i, sumSquaredRows (centerFeatures X) i =
      ∑ k, (centerFeatures X i k) ^ 2) ∧
    feature_space_linear_cka X Y true =
      debiased_dot_product_similarity_helper
          (frobNorm ((centerFeatures X)ᵀ * centerFeatures Y) ^ 2)
          (sumSquaredRows (centerFeatures X)) (sumSquaredRows (centerFeatures Y))
          (∑ i, sumSquaredRows (centerFeatures X) i)
          (∑ i, sumSquaredRows (centerFeatures Y) i) n /
        (Real.sqrt (debiased_dot_product_similarity_helper
            (frobNorm ((centerFeatures X)ᵀ * centerFeatures X) ^ 2)
            (sumSquaredRows (centerFeatures X)) (sumSquaredRows (centerFeatures X))
            (∑ i, sumSquaredRows (centerFeatures X) i)
            (∑ i, sumSquaredRows (centerFeatures X) i) n) *
          Real.sqrt (debiased_dot_product_similarity_helper
            (frobNorm ((centerFeatures Y)ᵀ * centerFeatures Y) ^ 2)
            (sumSquaredRows (centerFeatures Y)) (sumSquaredRows (centerFeatures Y))
            (∑ i, sumSquaredRows (centerFeatures Y) i)
            (∑ i, sumSquaredRows (centerFeatures Y) i) n)) := by
  refine ⟨fun _ _ _ _ _ => rfl, fun i => ?_, rfl⟩
  unfold sumSquaredRows
  exact Finset.sum_congr rfl fun k _ => (sq (centerFeatures X i k)).symm ▸ by ring

/-! ## C5: the RBF kernel formula -/

/-- Pairwise squared Euclidean distances through the Gram-matrix identity of
the spec: `d²(i,j) = g(i,i) - 2 g(i,j) + g(j,j)` with `g` the linear Gram
matrix. -/
def sqDistances {n d : ℕ} (X : Matrix (Fin n) (Fin d) ℝ) :
    Matrix (Fin n) (Fin n) ℝ :=
  fun i j => gram_linear X i i - 2 * gram_linear X i j + gram_linear X j j

/-- C5: `gram_rbf` computes squared distances via the Gram identity (their
diagonal is zero), takes the bandwidth `σ² = threshold² * median` with the
median over all `N²` entries, including the zero diagonal, and returns
`exp(-d² / (2 σ²))` entrywise. -/
theorem gram_rbf_formula {n d : ℕ} (X : Matrix (Fin n) (Fin d) ℝ)
    (threshold : ℝ) :
    (∀ i, sqDistances X i i = 0) ∧
    gram_rbf X threshold = fun i j =>
      Real.exp (-(sqDistances X i j) /
        (2 * (threshold ^ 2 * npMedian (entriesList (sqDistances X))))) := by
  have hmat : (fun i j => -2 * (X * Xᵀ) i j + (X * Xᵀ) i i + (X * Xᵀ) j j :
      Matrix (Fin n) (Fin n) ℝ) = sqDistances X := by
    funext i j
    simp only [sqDistances, gram_linear]
    ring
  constructor
  · intro i
    simp only [sqDistances]
    ring
  · unfold gram_rbf
    dsimp only
    rw [hmat]
    funext i j
    congr 1
    simp only [sqDistances, gram_linear]
    ring

/-! ## Frobenius norm and inner product lemmas -/

lemma frobInner_comm {a b : ℕ} (A B : Matrix (Fin a) (Fin b) ℝ) :
    frobInner A B = frobInner B A := by
  unfold frobInner
  exact Finset.sum_congr rfl fun i _ => Finset.sum_congr rfl fun j _ => mul_comm _ _

lemma frobNormSq_transpose {a b : ℕ} (A : Matrix (Fin a) (Fin b) ℝ) :
    frobNormSq Aᵀ = frobNormSq A := by
  unfold frobNormSq frobInner
  rw [Finset.sum_comm]
  rfl

lemma frobNorm_transpose_mul {n a b : ℕ} (A : Matrix (Fin n) (Fin a) ℝ)
    (B : Matrix (Fin n) (Fin b) ℝ) : frobNorm (Aᵀ * B) = frobNorm (Bᵀ * A) := by
  unfold frobNorm
  congr 1
  rw [← frobNormSq_transpose (Aᵀ * B), Matrix.transpose_mul,
    Matrix.transpose_transpose]

lemma frobNormSq_nonneg {a b : ℕ} (A : Matrix (Fin a) (Fin b) ℝ) :
    0 ≤ frobNormSq A := by
  unfold frobNormSq frobInner
  exact Finset.sum_nonneg fun i _ => Finset.sum_nonneg fun j _ => mul_self_nonneg _

/-! ## C6: argument symmetry of cka and cca -/

/-- C6: both similarity scores are symmetric in their two arguments — `cka`
on symmetric Gram matrices of equal size (in both modes), and `cca` on
feature matrices with the same number of rows. -/
theorem cka_and_cca_symmetric :
    (∀ (n : ℕ) (Gx Gy : Matrix (Fin n) (Fin n) ℝ) (b : Bool),
      Gxᵀ = Gx → Gyᵀ = Gy → cka Gx Gy b = cka Gy Gx b) ∧
    (∀ (n dx dy : ℕ) (X : Matrix (Fin n) (Fin dx) ℝ)
      (Y : Matrix (Fin n) (Fin dy) ℝ), cca X Y = cca Y X) := by
  constructor
  · intro n Gx Gy b hx hy
    unfold cka center_gram
    rw [if_pos hx, if_pos hy]
    exact congrArg Except.ok (by rw [frobInner_comm, mul_comm])
  · intro n dx dy X Y
    unfold cca
    rw [frobNorm_transpose_mul, min_comm]

/-- Witness for C6 at concrete symmetric Gram matrices and feature
matrices. -/
theorem cka_and_cca_symmetric_witness :
    ((gram_linear !![(1 : ℝ); 0; 2])ᵀ = gram_linear !![(1 : ℝ); 0; 2] ∧
      (gram_linear !![(0 : ℝ); 1; 1])ᵀ = gram_linear !![(0 : ℝ); 1; 1] ∧
      cka (gram_linear !![(1 : ℝ); 0; 2]) (gram_linear !![(0 : ℝ); 1; 1]) true =
        cka (gram_linear !![(0 : ℝ); 1; 1]) (gram_linear !![(1 : ℝ); 0; 2]) true) ∧
    cca !![(1 : ℝ); 0; 2] !![(0 : ℝ); 1; 1] = cca !![(0 : ℝ); 1; 1] !![(1 : ℝ); 0; 2] :=
  ⟨⟨gram_linear_isSymm _, gram_linear_isSymm _,
    cka_and_cca_symmetric.1 3 _ _ true (gram_linear_isSymm _) (gram_linear_isSymm _)⟩,
    cka_and_cca_symmetric.2 3 1 1 _ _⟩

/-! ## C7: self-similarity of the biased estimator -/

/-- C7: for a symmetric Gram matrix whose biased-centered form has nonzero
Frobenius norm, the biased CKA of the matrix with itself is exactly 1. -/
theorem cka_self_eq_one {n : ℕ} (G : Matrix (Fin n) (Fin n) ℝ)
    (hG : Gᵀ = G) (hne : frobNorm (centerGramBiased G) ≠ 0) :
    cka G G false = Except.ok 1 := by
  have h0 : (0 : ℝ) ≤ frobNormSq (centerGramBiased G) := frobNormSq_nonneg _
  have hs : frobNorm (centerGramBiased G) * frobNorm (centerGramBiased G) =
      frobNormSq (centerGramBiased G) := Real.mul_self_sqrt h0
  have hsq : frobNormSq (centerGramBiased G) ≠ 0 := by
    intro h
    exact hne (by rw [frobNorm, h, Real.sqrt_zero])
  unfold cka center_gram
  rw [if_pos hG]
  show Except.ok (frobNormSq (centerGramBiased G) /
      (frobNorm (centerGramBiased G) * frobNorm (centerGramBiased G))) =
    Except.ok 1
  rw [hs, div_self hsq]

/-- Witness for C7 at the Gram matrix of the column `(1, 0, 2)`. -/
theorem cka_self_eq_one_witness :
    (gram_linear !![(1 : ℝ); 0; 2])ᵀ = gram_linear !![(1 : ℝ); 0; 2] ∧
    frobNorm (centerGramBiased (gram_linear !![(1 : ℝ); 0; 2])) ≠ 0 ∧
    cka (gram_linear !![(1 : ℝ); 0; 2]) (gram_linear !![(1 : ℝ); 0; 2]) false =
      Except.ok 1 := by
  have h4 : frobNormSq (centerGramBiased (gram_linear !![(1 : ℝ); 0; 2])) = 4 := by
    norm_num [frobNormSq, frobInner, centerGramBiased, gram_linear,
      Matrix.mul_apply, Matrix.transpose_apply, Fin.sum_univ_succ]
  have hne : frobNorm (centerGramBiased (gram_linear !![(1 : ℝ); 0; 2])) ≠ 0 := by
    rw [frobNorm, h4]
    norm_num
  exact ⟨gram_linear_isSymm _, hne,
    cka_self_eq_one _ (gram_linear_isSymm _) hne⟩

/-! ## C10: argument symmetry of feature-space linear CKA -/

/-- C10: `feature_space_linear_cka` is symmetric in its two feature-matrix
arguments in both the biased and the debiased mode. -/
theorem feature_space_linear_cka_symm {n dx dy : ℕ}
    (X : Matrix (Fin n) (Fin dx) ℝ) (Y : Matrix (Fin n) (Fin dy) ℝ)
    (b : Bool) (hn : b = true → 3 ≤ n) :
    feature_space_linear_cka X Y b = feature_space_linear_cka Y X b := by
  have hraw : frobNorm ((centerFeatures X)ᵀ * centerFeatures Y) =
      frobNorm ((centerFeatures Y)ᵀ * centerFeatures X) :=
    frobNorm_transpose_mul _ _
  have hsum : (∑ i, sumSquaredRows (centerFeatures X) i *
        sumSquaredRows (centerFeatures Y) i) =
      ∑ i, sumSquaredRows (centerFeatures Y) i *
        sumSquaredRows (centerFeatures X) i :=
    Finset.sum_congr rfl fun i _ => mul_comm _ _
  cases b with
  | false =>
    show frobNorm ((centerFeatures X)ᵀ * centerFeatures Y) ^ 2 /
        (frobNorm ((centerFeatures X)ᵀ * centerFeatures X) *
          frobNorm ((centerFeatures Y)ᵀ * centerFeatures Y)) =
      frobNorm ((centerFeatures Y)ᵀ * centerFeatures X) ^ 2 /
        (frobNorm ((centerFeatures Y)ᵀ * centerFeatures Y) *
          frobNorm ((centerFeatures X)ᵀ * centerFeatures X))
    rw [hraw, mul_comm]
  | true =>
    have hnum : debiased_dot_product_similarity_helper
        (frobNorm ((centerFeatures X)ᵀ * centerFeatures Y) ^ 2)
        (sumSquaredRows (centerFeatures X)) (sumSquaredRows (centerFeatures Y))
        (∑ i, sumSquaredRows (centerFeatures X) i)
        (∑ i, sumSquaredRows (centerFeatures Y) i) n =
      debiased_dot_product_similarity_helper
        (frobNorm ((centerFeatures Y)ᵀ * centerFeatures X) ^ 2)
        (sumSquaredRows (centerFeatures Y)) (sumSquaredRows (centerFeatures X))
        (∑ i, sumSquaredRows (centerFeatures Y) i)
        (∑ i, sumSquaredRows (centerFeatures X) i) n := by
      unfold debiased_dot_product_similarity_helper
      rw [hraw, hsum]
      ring
    show debiased_dot_product_similarity_helper
        (frobNorm ((centerFeatures X)ᵀ * centerFeatures Y) ^ 2)
        (sumSquaredRows (centerFeatures X)) (sumSquaredRows (centerFeatures Y))
        (∑ i, sumSquaredRows (centerFeatures X) i)
        (∑ i, sumSquaredRows (centerFeatures Y) i) n /
      (Real.sqrt (debiased_dot_product_similarity_helper
          (frobNorm ((centerFeatures X)ᵀ * centerFeatures X) ^ 2)
          (sumSquaredRows (centerFeatures X)) (sumSquaredRows (centerFeatures X))
          (∑ i, sumSquaredRows (centerFeatures X) i)
          (∑ i, sumSquaredRows (centerFeatures X) i) n) *
        Real.sqrt (debiased_dot_product_similarity_helper
          (frobNorm ((centerFeatures Y)ᵀ * centerFeatures Y) ^ 2)
          (sumSquaredRows (centerFeatures Y)) (sumSquaredRows (centerFeatures Y))
          (∑ i, sumSquaredRows (centerFeatures Y) i)
          (∑ i, sumSquaredRows (centerFeatures Y) i) n)) =
      debiased_dot_product_similarity_helper
        (frobNorm ((centerFeatures Y)ᵀ * centerFeatures X) ^ 2)
        (sumSquaredRows (centerFeatures Y)) (sumSquaredRows (centerFeatures X))
        (∑ i, sumSquaredRows (centerFeatures Y) i)
        (∑ i, sumSquaredRows (centerFeatures X) i) n /
      (Real.sqrt (debiased_dot_product_similarity_helper
          (frobNorm ((centerFeatures Y)ᵀ * centerFeatures Y) ^ 2)
          (sumSquaredRows (centerFeatures Y)) (sumSquaredRows (centerFeatures Y))
          (∑ i, sumSquaredRows (centerFeatures Y) i)
          (∑ i, sumSquaredRows (centerFeatures Y) i) n) *
        Real.sqrt (debiased_dot_product_similarity_helper
          (frobNorm ((centerFeatures X)ᵀ * centerFeatures X) ^ 2)
          (sumSquaredRows (centerFeatures X)) (sumSquaredRows (centerFeatures X))
          (∑ i, sumSquaredRows (centerFeatures X) i)
          (∑ i, sumSquaredRows (centerFeatures X) i) n))
    rw [hnum, mul_comm]

/-- Witness for C10 at concrete single-column feature matrices with four
rows in debiased mode. -/
theorem feature_space_linear_cka_symm_witness :
    feature_space_linear_cka !![(1 : ℝ); 0; 2; 1] !![(0 : ℝ); 1; 1; 3] true =
      feature_space_linear_cka !![(0 : ℝ); 1; 1; 3] !![(1 : ℝ); 0; 2; 1] true :=
  feature_space_linear_cka_symm _ _ true (fun _ => by norm_num)

/-! ## Summation helper lemmas -/

lemma sum_ite_ne_left {n : ℕ} (f : Fin n → ℝ) (j : Fin n) :
    ∑ i, (if i = j then 0 else f i) = (∑ i, f i) - f j := by
  calc ∑ i, (if i = j then 0 else f i)
      = ∑ i, (f i - if i = j then f i else 0) :=
        Finset.sum_congr rfl fun i _ => by by_cases hh : i = j <;> simp [hh]
    _ = (∑ i, f i) - ∑ i, (if i = j then f i else 0) := Finset.sum_sub_distrib
    _ = (∑ i, f i) - f j := by
        rw [Finset.sum_ite_eq' Finset.univ j f]
        simp

lemma sum_ite_ne_right {n : ℕ} (f : Fin n → ℝ) (i : Fin n) :
    ∑ j, (if i = j then 0 else f j) = (∑ j, f j) - f i := by
  calc ∑ j, (if i = j then 0 else f j)
      = ∑ j, (f j - if i = j then f j else 0) :=
        Finset.sum_congr rfl fun j _ => by by_cases hh : i = j <;> simp [hh]
    _ = (∑ j, f j) - ∑ j, (if i = j then f j else 0) := Finset.sum_sub_distrib
    _ = (∑ j, f j) - f i := by
        rw [Finset.sum_ite_eq Finset.univ i f]
        simp

lemma sum_offdiag {n : ℕ} (f : Fin n → Fin n → ℝ) :
    ∑ i, ∑ j, (if i = j then 0 else f i j) =
      (∑ i, ∑ j, f i j) - ∑ i, f i i := by
  calc ∑ i, ∑ j, (if i = j then 0 else f i j)
      = ∑ i, ((∑ j, f i j) - f i i) :=
        Finset.sum_congr rfl fun i _ => sum_ite_ne_right (f i) i
    _ = (∑ i, ∑ j, f i j) - ∑ i, f i i := Finset.sum_sub_distrib

lemma sum4_swap {n da db : ℕ} (f : Fin n → Fin n → Fin da → Fin db → ℝ) :
    ∑ i, ∑ j, ∑ k, ∑ l, f i j k l = ∑ k, ∑ l, ∑ i, ∑ j, f i j k l := by
  calc ∑ i, ∑ j, ∑ k, ∑ l, f i j k l
      = ∑ i, ∑ k, ∑ j, ∑ l, f i j k l :=
        Finset.sum_congr rfl fun i _ => Finset.sum_comm
    _ = ∑ k, ∑ i, ∑ j, ∑ l, f i j k l := Finset.sum_comm
    _ = ∑ k, ∑ i, ∑ l, ∑ j, f i j k l :=
        Finset.sum_congr rfl fun k _ =>
          Finset.sum_congr rfl fun i _ => Finset.sum_comm
    _ = ∑ k, ∑ l, ∑ i, ∑ j, f i j k l :=
        Finset.sum_congr rfl fun k _ => Finset.sum_comm

/-! ## The Gram and feature forms of the dot-product similarity -/

lemma frobInner_mul_transpose {n da db : ℕ} (A : Matrix (Fin n) (Fin da) ℝ)
    (B : Matrix (Fin n) (Fin db) ℝ) :
    frobInner (A * Aᵀ) (B * Bᵀ) = frobNormSq (Aᵀ * B) := by
  unfold frobNormSq frobInner
  have hL : ∀ i j : Fin n, (A * Aᵀ) i j * (B * Bᵀ) i j
      = ∑ k, ∑ l, (A i k * B i l) * (A j k * B j l) := by
    intro i j
    rw [Matrix.mul_apply, Matrix.mul_apply, Finset.sum_mul_sum]
    exact Finset.sum_congr rfl fun k _ => Finset.sum_congr rfl fun l _ => by
      simp [Matrix.transpose_apply]
      ring
  have hR : ∀ (k : Fin da) (l : Fin db), (Aᵀ * B) k l * (Aᵀ * B) k l
      = ∑ i, ∑ j, (A i k * B i l) * (A j k * B j l) := by
    intro k l
    rw [Matrix.mul_apply, Finset.sum_mul_sum]
    exact Finset.sum_congr rfl fun i _ => Finset.sum_congr rfl fun j _ => by
      simp [Matrix.transpose_apply]
  calc ∑ i, ∑ j, (A * Aᵀ) i j * (B * Bᵀ) i j
      = ∑ i, ∑ j, ∑ k, ∑ l, (A i k * B i l) * (A j k * B j l) :=
        Finset.sum_congr rfl fun i _ => Finset.sum_congr rfl fun j _ => hL i j
    _ = ∑ k, ∑ l, ∑ i, ∑ j, (A i k * B i l) * (A j k * B j l) := sum4_swap _
    _ = ∑ k, ∑ l, (Aᵀ * B) k l * (Aᵀ * B) k l :=
        Finset.sum_congr rfl fun k _ => Finset.sum_congr rfl fun l _ => (hR k l).symm

lemma frobNormSq_gram_feature {n d : ℕ} (A : Matrix (Fin n) (Fin d) ℝ) :
    frobNormSq (A * Aᵀ) = frobNormSq (Aᵀ * A) :=
  frobInner_mul_transpose A A

/-! ## Column sums and the biased centering of a linear Gram matrix -/

lemma colsum_eq {n d : ℕ} (X : Matrix (Fin n) (Fin d) ℝ) (hn : (n : ℝ) ≠ 0)
    (k : Fin d) : ∑ a, X a k = (n : ℝ) * colMean X k := by
  rw [colMean, mul_comm, div_mul_cancel₀ _ hn]

lemma centerFeatures_colsum {n d : ℕ} (X : Matrix (Fin n) (Fin d) ℝ)
    (hn : (n : ℝ) ≠ 0) (k : Fin d) : ∑ i, centerFeatures X i k = 0 := by
  unfold centerFeatures
  rw [Finset.sum_sub_distrib, Finset.sum_const, Finset.card_univ,
    Fintype.card_fin, nsmul_eq_mul, colsum_eq X hn k, sub_self]

lemma gram_linear_apply {n d : ℕ} (X : Matrix (Fin n) (Fin d) ℝ)
    (i j : Fin n) : gram_linear X i j = ∑ k, X i k * X j k := by
  simp [gram_linear, Matrix.mul_apply]

lemma gram_colmean {n d : ℕ} (X : Matrix (Fin n) (Fin d) ℝ)
    (hn : (n : ℝ) ≠ 0) (a : Fin n) :
    (∑ i', gram_linear X i' a) / (n : ℝ) = ∑ k, colMean X k * X a k := by
  have h1 : ∑ i', gram_linear X i' a = (n : ℝ) * ∑ k, colMean X k * X a k := by
    calc ∑ i', gram_linear X i' a
        = ∑ i', ∑ k, X i' k * X a k :=
          Finset.sum_congr rfl fun i' _ => gram_linear_apply X i' a
      _ = ∑ k, ∑ i', X i' k * X a k := Finset.sum_comm
      _ = ∑ k, (∑ i', X i' k) * X a k :=
          Finset.sum_congr rfl fun k _ => (Finset.sum_mul _ _ _).symm
      _ = ∑ k, ((n : ℝ) * colMean X k) * X a k :=
          Finset.sum_congr rfl fun k _ => by rw [colsum_eq X hn k]
      _ = (n : ℝ) * ∑ k, colMean X k * X a k := by
          rw [Finset.mul_sum]
          exact Finset.sum_congr rfl fun k _ => by ring
  rw [h1, mul_comm, mul_div_assoc, div_self hn, mul_one]

lemma gram_colmean_total {n d : ℕ} (X : Matrix (Fin n) (Fin d) ℝ)
    (hn : (n : ℝ) ≠ 0) :
    (∑ a, ∑ k, colMean X k * X a k) / (n : ℝ) =
      ∑ k, colMean X k * colMean X k := by
  have h1 : ∑ a, ∑ k, colMean X k * X a k =
      (n : ℝ) * ∑ k, colMean X k * colMean X k := by
    calc ∑ a, ∑ k, colMean X k * X a k
        = ∑ k, ∑ a, colMean X k * X a k := Finset.sum_comm
      _ = ∑ k, colMean X k * ((n : ℝ) * colMean X k) :=
          Finset.sum_congr rfl fun k _ => by
            rw [← Finset.mul_sum, colsum_eq X hn k]
      _ = (n : ℝ) * ∑ k, colMean X k * colMean X k := by
          rw [Finset.mul_sum]
          exact Finset.sum_congr rfl fun k _ => by ring
  rw [h1, mul_comm, mul_div_assoc, div_self hn, mul_one]

lemma centerGramBiased_gram_linear {n d : ℕ} (X : Matrix (Fin n) (Fin d) ℝ)
    (hn : (n : ℝ) ≠ 0) :
    centerGramBiased (gram_linear X) =
      centerFeatures X * (centerFeatures X)ᵀ := by
  ext i j
  have hR : (centerFeatures X * (centerFeatures X)ᵀ) i j
      = (∑ k, X i k * X j k) - (∑ k, colMean X k * X i k)
        - (∑ k, colMean X k * X j k)
        + ∑ k, colMean X k * colMean X k := by
    calc (centerFeatures X * (centerFeatures X)ᵀ) i j
        = ∑ k, (X i k - colMean X k) * (X j k - colMean X k) := by
          rw [Matrix.mul_apply]
          exact Finset.sum_congr rfl fun k _ => by
            simp [centerFeatures, Matrix.transpose_apply]
      _ = ∑ k, ((X i k * X j k) - (colMean X k * X i k)
            - (colMean X k * X j k) + colMean X k * colMean X k) :=
          Finset.sum_congr rfl fun k _ => by ring
      _ = _ := by
          rw [Finset.sum_add_distrib, Finset.sum_sub_distrib,
            Finset.sum_sub_distrib]
  show gram_linear X i j -
      ((∑ i', gram_linear X i' i) / (n : ℝ) -
        (∑ j', (∑ i', gram_linear X i' j') / (n : ℝ)) / (n : ℝ) / 2) -
      ((∑ i', gram_linear X i' j) / (n : ℝ) -
        (∑ j', (∑ i', gram_linear X i' j') / (n : ℝ)) / (n : ℝ) / 2) =
    (centerFeatures X * (centerFeatures X)ᵀ) i j
  rw [hR, gram_linear_apply]
  have hmeans : ∀ a, (∑ i', gram_linear X i' a) / (n : ℝ) =
      ∑ k, colMean X k * X a k := gram_colmean X hn
  rw [hmeans i, hmeans j]
  have htot : (∑ j', (∑ i', gram_linear X i' j') / (n : ℝ)) / (n : ℝ) =
      ∑ k, colMean X k * colMean X k := by
    calc (∑ j', (∑ i', gram_linear X i' j') / (n : ℝ)) / (n : ℝ)
        = (∑ j', ∑ k, colMean X k * X j' k) / (n : ℝ) := by
          rw [Finset.sum_congr rfl fun j' _ => hmeans j']
      _ = ∑ k, colMean X k * colMean X k := gram_colmean_total X hn
  rw [htot]
  ring

/-! ## Shift invariance of the unbiased centering -/

lemma centerGramUnbiased_shift {n : ℕ} (K : Matrix (Fin n) (Fin n) ℝ)
    (a : Fin n → ℝ) (h2 : (n : ℝ) - 2 ≠ 0) (h1 : (n : ℝ) - 1 ≠ 0) :
    centerGramUnbiased (fun i j => K i j + a i + a j) = centerGramUnbiased K := by
  have hcol : ∀ j, (∑ i, if i = j then (0 : ℝ) else K i j + a i + a j)
      = (∑ i, if i = j then (0 : ℝ) else K i j) + (∑ i, a i)
        + ((n : ℝ) - 2) * a j := by
    intro j
    rw [sum_ite_ne_left (fun i => K i j + a i + a j) j,
      sum_ite_ne_left (fun i => K i j) j, Finset.sum_add_distrib,
      Finset.sum_add_distrib, Finset.sum_const, Finset.card_univ,
      Fintype.card_fin, nsmul_eq_mul]
    ring
  have hmeans2 : ∀ j,
      (∑ i, if i = j then (0 : ℝ) else K i j + a i + a j) / ((n : ℝ) - 2) -
        (∑ j', (∑ i, if i = j' then (0 : ℝ) else K i j' + a i + a j') /
          ((n : ℝ) - 2)) / (2 * ((n : ℝ) - 1))
      = ((∑ i, if i = j then (0 : ℝ) else K i j) / ((n : ℝ) - 2) -
          (∑ j', (∑ i, if i = j' then (0 : ℝ) else K i j') / ((n : ℝ) - 2)) /
            (2 * ((n : ℝ) - 1))) + a j := by
    intro j
    have hsums : ∑ j', (∑ i, if i = j' then (0 : ℝ) else K i j' + a i + a j') /
        ((n : ℝ) - 2)
        = (∑ j', (∑ i, if i = j' then (0 : ℝ) else K i j') / ((n : ℝ) - 2))
          + (n : ℝ) * ((∑ i, a i) / ((n : ℝ) - 2)) + ∑ i, a i := by
      calc ∑ j', (∑ i, if i = j' then (0 : ℝ) else K i j' + a i + a j') /
          ((n : ℝ) - 2)
          = ∑ j', ((∑ i, if i = j' then (0 : ℝ) else K i j') / ((n : ℝ) - 2)
              + (∑ i, a i) / ((n : ℝ) - 2) + a j') := by
            refine Finset.sum_congr rfl fun j' _ => ?_
            rw [hcol j', add_div, add_div, mul_div_cancel_left₀ _ h2]
        _ = _ := by
            rw [Finset.sum_add_distrib, Finset.sum_add_distrib,
              Finset.sum_const, Finset.card_univ, Fintype.card_fin,
              nsmul_eq_mul]
    rw [hcol j, hsums]
    field_simp
    ring
  funext i j
  show (if i = j then (0 : ℝ) else _) = (if i = j then (0 : ℝ) else _)
  by_cases hij : i = j
  · rw [if_pos hij, if_pos hij]
  · rw [if_neg hij, if_neg hij]
    dsimp only
    rw [if_neg hij, if_neg hij]
    rw [hmeans2 i, hmeans2 j]
    ring

/-! ## The centered-feature Gram matrix as a row-and-column shift -/

lemma gram_centerFeatures_shift {n d : ℕ} (X : Matrix (Fin n) (Fin d) ℝ) :
    centerFeatures X * (centerFeatures X)ᵀ = fun i j => gram_linear X i j +
      ((∑ k, colMean X k * colMean X k) / 2 - ∑ k, colMean X k * X i k) +
      ((∑ k, colMean X k * colMean X k) / 2 - ∑ k, colMean X k * X j k) := by
  funext i j
  have hR : (centerFeatures X * (centerFeatures X)ᵀ) i j
      = (∑ k, X i k * X j k) - (∑ k, colMean X k * X i k)
        - (∑ k, colMean X k * X j k)
        + ∑ k, colMean X k * colMean X k := by
    calc (centerFeatures X * (centerFeatures X)ᵀ) i j
        = ∑ k, (X i k - colMean X k) * (X j k - colMean X k) := by
          rw [Matrix.mul_apply]
          exact Finset.sum_congr rfl fun k _ => by
            simp [centerFeatures, Matrix.transpose_apply]
      _ = ∑ k, ((X i k * X j k) - (colMean X k * X i k)
            - (colMean X k * X j k) + colMean X k * colMean X k) :=
          Finset.sum_congr rfl fun k _ => by ring
      _ = _ := by
          rw [Finset.sum_add_distrib, Finset.sum_sub_distrib,
            Finset.sum_sub_distrib]
  rw [hR, gram_linear_apply]
  ring

lemma centerGramUnbiased_gram_eq {n d : ℕ} (X : Matrix (Fin n) (Fin d) ℝ)
    (h2 : (n : ℝ) - 2 ≠ 0) (h1 : (n : ℝ) - 1 ≠ 0) :
    centerGramUnbiased (centerFeatures X * (centerFeatures X)ᵀ) =
      centerGramUnbiased (gram_linear X) := by
  rw [gram_centerFeatures_shift X]
  exact centerGramUnbiased_shift (gram_linear X)
    (fun i => (∑ k, colMean X k * colMean X k) / 2 - ∑ k, colMean X k * X i k)
    h2 h1

/-! ## Expansion of the off-diagonal inner product -/

lemma sum_univ_const_real {n : ℕ} (c : ℝ) :
    ∑ _j : Fin n, c = (n : ℝ) * c := by
  rw [Finset.sum_const, Finset.card_univ, Fintype.card_fin, nsmul_eq_mul]

lemma offdiag_inner_expansion {n : ℕ} (K L : Matrix (Fin n) (Fin n) ℝ)
    (mK mL : Fin n → ℝ)
    (hKrow : ∀ i, ∑ j, K i j = 0) (hKcol : ∀ j, ∑ i, K i j = 0)
    (hLrow : ∀ i, ∑ j, L i j = 0) (hLcol : ∀ j, ∑ i, L i j = 0) :
    ∑ i, ∑ j, (if i = j then 0 else
        (K i j - mK i - mK j) * (L i j - mL i - mL j))
      = (∑ i, ∑ j, K i j * L i j)
        + (2 * (n : ℝ) - 4) * (∑ i, mK i * mL i)
        + 2 * ((∑ i, mK i) * (∑ i, mL i))
        - ∑ i, K i i * L i i
        + 2 * ∑ i, K i i * mL i
        + 2 * ∑ i, mK i * L i i := by
  have hinner : ∀ i, ∑ j, (K i j - mK i - mK j) * (L i j - mL i - mL j)
      = (∑ j, K i j * L i j) - (∑ j, K i j * mL j) - (∑ j, mK j * L i j)
        + (∑ j, mK j * mL j) + (n : ℝ) * (mK i * mL i)
        + mK i * (∑ j, mL j) + (∑ j, mK j) * mL i := by
    intro i
    calc ∑ j, (K i j - mK i - mK j) * (L i j - mL i - mL j)
        = ∑ j, (K i j * L i j - K i j * mL j - mK j * L i j + mK j * mL j
            + mK i * mL i + mK i * mL j + mK j * mL i
            - K i j * mL i - mK i * L i j) :=
          Finset.sum_congr rfl fun j _ => by ring
      _ = _ := by
          simp only [Finset.sum_add_distrib, Finset.sum_sub_distrib]
          rw [sum_univ_const_real (mK i * mL i), ← Finset.mul_sum,
            ← Finset.sum_mul, ← Finset.sum_mul, ← Finset.mul_sum,
            hKrow i, hLrow i]
          ring
  have hz1 : ∑ i, ∑ j, K i j * mL j = 0 := by
    calc ∑ i, ∑ j, K i j * mL j = ∑ j, ∑ i, K i j * mL j := Finset.sum_comm
      _ = ∑ j, (∑ i, K i j) * mL j :=
          Finset.sum_congr rfl fun j _ => (Finset.sum_mul _ _ _).symm
      _ = 0 := Finset.sum_eq_zero fun j _ => by rw [hKcol j, zero_mul]
  have hz2 : ∑ i, ∑ j, mK j * L i j = 0 := by
    calc ∑ i, ∑ j, mK j * L i j = ∑ j, ∑ i, mK j * L i j := Finset.sum_comm
      _ = ∑ j, mK j * ∑ i, L i j :=
          Finset.sum_congr rfl fun j _ => (Finset.mul_sum _ _ _).symm
      _ = 0 := Finset.sum_eq_zero fun j _ => by rw [hLcol j, mul_zero]
  have hmain : ∑ i, ∑ j, (K i j - mK i - mK j) * (L i j - mL i - mL j)
      = (∑ i, ∑ j, K i j * L i j) + 2 * (n : ℝ) * (∑ i, mK i * mL i)
        + 2 * ((∑ i, mK i) * (∑ i, mL i)) := by
    calc ∑ i, ∑ j, (K i j - mK i - mK j) * (L i j - mL i - mL j)
        = ∑ i, ((∑ j, K i j * L i j) - (∑ j, K i j * mL j)
            - (∑ j, mK j * L i j) + (∑ j, mK j * mL j)
            + (n : ℝ) * (mK i * mL i) + mK i * (∑ j, mL j)
            + (∑ j, mK j) * mL i) :=
          Finset.sum_congr rfl fun i _ => hinner i
      _ = _ := by
          simp only [Finset.sum_add_distrib, Finset.sum_sub_distrib]
          rw [sum_univ_const_real (∑ j, mK j * mL j), ← Finset.mul_sum,
            ← Finset.sum_mul, ← Finset.mul_sum, hz1, hz2]
          ring
  have hdiag : ∑ i, (K i i - mK i - mK i) * (L i i - mL i - mL i)
      = ∑ i, K i i * L i i - 2 * ∑ i, K i i * mL i
        - 2 * ∑ i, mK i * L i i + 4 * ∑ i, mK i * mL i := by
    calc ∑ i, (K i i - mK i - mK i) * (L i i - mL i - mL i)
        = ∑ i, (K i i * L i i - 2 * (K i i * mL i) - 2 * (mK i * L i i)
            + 4 * (mK i * mL i)) :=
          Finset.sum_congr rfl fun i _ => by ring
      _ = _ := by
          simp only [Finset.sum_add_distrib, Finset.sum_sub_distrib]
          rw [← Finset.mul_sum, ← Finset.mul_sum, ← Finset.mul_sum]
  rw [sum_offdiag (fun i j => (K i j - mK i - mK j) * (L i j - mL i - mL j)),
    hmain, hdiag]
  ring

/-! ## Sums of affine combinations -/

lemma sum_affine {n : ℕ} (p : Fin n → ℝ) (α β : ℝ) :
    ∑ i, (α * p i + β) = α * (∑ i, p i) + (n : ℝ) * β := by
  rw [Finset.sum_add_distrib, ← Finset.mul_sum, Finset.sum_const,
    Finset.card_univ, Fintype.card_fin, nsmul_eq_mul]

lemma sum_affine_mul {n : ℕ} (p q : Fin n → ℝ) (α β γ δ : ℝ) :
    ∑ i, (α * p i + β) * (γ * q i + δ)
      = α * γ * (∑ i, p i * q i) + α * δ * (∑ i, p i)
        + γ * β * (∑ i, q i) + (n : ℝ) * (β * δ) := by
  calc ∑ i, (α * p i + β) * (γ * q i + δ)
      = ∑ i, (α * γ * (p i * q i) + α * δ * p i + (γ * β * q i + β * δ)) :=
        Finset.sum_congr rfl fun i _ => by ring
    _ = _ := by
        simp only [Finset.sum_add_distrib]
        rw [← Finset.mul_sum, ← Finset.mul_sum, ← Finset.mul_sum,
          sum_univ_const_real]
        ring

lemma sum_mul_affine {n : ℕ} (p q : Fin n → ℝ) (γ δ : ℝ) :
    ∑ i, p i * (γ * q i + δ)
      = γ * (∑ i, p i * q i) + δ * (∑ i, p i) := by
  calc ∑ i, p i * (γ * q i + δ)
      = ∑ i, (γ * (p i * q i) + δ * p i) :=
        Finset.sum_congr rfl fun i _ => by ring
    _ = _ := by
        rw [Finset.sum_add_distrib, ← Finset.mul_sum, ← Finset.mul_sum]

/-! ## The master identity: unbiased HSIC in feature space -/

lemma mul_transpose_apply {n d : ℕ} (A : Matrix (Fin n) (Fin d) ℝ)
    (i j : Fin n) : (A * Aᵀ) i j = ∑ k, A i k * A j k := by
  rw [Matrix.mul_apply]
  rfl

lemma mul_transpose_rowsum {n d : ℕ} (A : Matrix (Fin n) (Fin d) ℝ)
    (hA : ∀ k, ∑ i, A i k = 0) (i : Fin n) : ∑ j, (A * Aᵀ) i j = 0 := by
  calc ∑ j, (A * Aᵀ) i j = ∑ j, ∑ k, A i k * A j k :=
        Finset.sum_congr rfl fun j _ => mul_transpose_apply A i j
    _ = ∑ k, ∑ j, A i k * A j k := Finset.sum_comm
    _ = ∑ k, A i k * ∑ j, A j k :=
        Finset.sum_congr rfl fun k _ => (Finset.mul_sum _ _ _).symm
    _ = 0 := Finset.sum_eq_zero fun k _ => by rw [hA k, mul_zero]

lemma mul_transpose_colsum {n d : ℕ} (A : Matrix (Fin n) (Fin d) ℝ)
    (hA : ∀ k, ∑ i, A i k = 0) (j : Fin n) : ∑ i, (A * Aᵀ) i j = 0 := by
  calc ∑ i, (A * Aᵀ) i j = ∑ i, ∑ k, A i k * A j k :=
        Finset.sum_congr rfl fun i _ => mul_transpose_apply A i j
    _ = ∑ k, ∑ i, A i k * A j k := Finset.sum_comm
    _ = ∑ k, (∑ i, A i k) * A j k :=
        Finset.sum_congr rfl fun k _ => (Finset.sum_mul _ _ _).symm
    _ = 0 := Finset.sum_eq_zero fun k _ => by rw [hA k, zero_mul]

lemma centerGramUnbiased_features_apply {n d : ℕ}
    (A : Matrix (Fin n) (Fin d) ℝ) (hA : ∀ k, ∑ i, A i k = 0) (i j : Fin n) :
    centerGramUnbiased (A * Aᵀ) i j = if i = j then 0 else
      ((A * Aᵀ) i j
        - (-1 / ((n : ℝ) - 2) * sumSquaredRows A i +
            ((∑ i', sumSquaredRows A i') / ((n : ℝ) - 2)) / (2 * ((n : ℝ) - 1)))
        - (-1 / ((n : ℝ) - 2) * sumSquaredRows A j +
            ((∑ i', sumSquaredRows A i') / ((n : ℝ) - 2)) /
              (2 * ((n : ℝ) - 1)))) := by
  have hdiagA : ∀ i', (A * Aᵀ) i' i' = sumSquaredRows A i' :=
    fun i' => mul_transpose_apply A i' i'
  have hcolKh : ∀ j', (∑ i', if i' = j' then (0 : ℝ) else (A * Aᵀ) i' j')
      = -(sumSquaredRows A j') := by
    intro j'
    rw [sum_ite_ne_left (fun i' => (A * Aᵀ) i' j') j',
      mul_transpose_colsum A hA j', hdiagA j']
    ring
  have hmK : ∀ j',
      (∑ i', if i' = j' then (0 : ℝ) else (A * Aᵀ) i' j') / ((n : ℝ) - 2) -
        (∑ j'', (∑ i', if i' = j'' then (0 : ℝ) else (A * Aᵀ) i' j'') /
          ((n : ℝ) - 2)) / (2 * ((n : ℝ) - 1))
      = -1 / ((n : ℝ) - 2) * sumSquaredRows A j' +
          ((∑ i', sumSquaredRows A i') / ((n : ℝ) - 2)) /
            (2 * ((n : ℝ) - 1)) := by
    intro j'
    have hs : ∑ j'', (∑ i', if i' = j'' then (0 : ℝ) else (A * Aᵀ) i' j'') /
        ((n : ℝ) - 2)
        = -((∑ i', sumSquaredRows A i') / ((n : ℝ) - 2)) := by
      calc ∑ j'', (∑ i', if i' = j'' then (0 : ℝ) else (A * Aᵀ) i' j'') /
          ((n : ℝ) - 2)
          = ∑ j'', -(sumSquaredRows A j'') / ((n : ℝ) - 2) :=
            Finset.sum_congr rfl fun j'' _ => by rw [hcolKh j'']
        _ = _ := by
            rw [← Finset.sum_div, Finset.sum_neg_distrib, neg_div]
    rw [hcolKh j', hs]
    ring
  show (if i = j then (0 : ℝ) else _) = _
  by_cases h : i = j
  · rw [if_pos h, if_pos h]
  · rw [if_neg h, if_neg h]
    dsimp only
    rw [if_neg h, hmK i, hmK j]

lemma frobInner_centerGramUnbiased_features {n da db : ℕ}
    (A : Matrix (Fin n) (Fin da) ℝ) (B : Matrix (Fin n) (Fin db) ℝ)
    (hA : ∀ k, ∑ i, A i k = 0) (hB : ∀ k, ∑ i, B i k = 0)
    (h2 : (n : ℝ) - 2 ≠ 0) (h1 : (n : ℝ) - 1 ≠ 0) :
    frobInner (centerGramUnbiased (A * Aᵀ)) (centerGramUnbiased (B * Bᵀ)) =
      debiased_dot_product_similarity_helper (frobNormSq (Aᵀ * B))
        (sumSquaredRows A) (sumSquaredRows B)
        (∑ i, sumSquaredRows A i) (∑ i, sumSquaredRows B i) n := by
  have hprod : ∀ i j,
      centerGramUnbiased (A * Aᵀ) i j * centerGramUnbiased (B * Bᵀ) i j
      = if i = j then 0 else
          (((A * Aᵀ) i j
            - (-1 / ((n : ℝ) - 2) * sumSquaredRows A i +
                ((∑ i', sumSquaredRows A i') / ((n : ℝ) - 2)) /
                  (2 * ((n : ℝ) - 1)))
            - (-1 / ((n : ℝ) - 2) * sumSquaredRows A j +
                ((∑ i', sumSquaredRows A i') / ((n : ℝ) - 2)) /
                  (2 * ((n : ℝ) - 1)))) *
          ((B * Bᵀ) i j
            - (-1 / ((n : ℝ) - 2) * sumSquaredRows B i +
                ((∑ i', sumSquaredRows B i') / ((n : ℝ) - 2)) /
                  (2 * ((n : ℝ) - 1)))
            - (-1 / ((n : ℝ) - 2) * sumSquaredRows B j +
                ((∑ i', sumSquaredRows B i') / ((n : ℝ) - 2)) /
                  (2 * ((n : ℝ) - 1))))) := by
    intro i j
    rw [centerGramUnbiased_features_apply A hA i j,
      centerGramUnbiased_features_apply B hB i j]
    by_cases h : i = j <;> simp [h]
  have step1 : frobInner (centerGramUnbiased (A * Aᵀ))
      (centerGramUnbiased (B * Bᵀ))
      = ∑ i, ∑ j, (if i = j then 0 else
          (((A * Aᵀ) i j
            - (fun i' => -1 / ((n : ℝ) - 2) * sumSquaredRows A i' +
                ((∑ i'', sumSquaredRows A i'') / ((n : ℝ) - 2)) /
                  (2 * ((n : ℝ) - 1))) i
            - (fun i' => -1 / ((n : ℝ) - 2) * sumSquaredRows A i' +
                ((∑ i'', sumSquaredRows A i'') / ((n : ℝ) - 2)) /
                  (2 * ((n : ℝ) - 1))) j) *
          ((B * Bᵀ) i j
            - (fun i' => -1 / ((n : ℝ) - 2) * sumSquaredRows B i' +
                ((∑ i'', sumSquaredRows B i'') / ((n : ℝ) - 2)) /
                  (2 * ((n : ℝ) - 1))) i
            - (fun i' => -1 / ((n : ℝ) - 2) * sumSquaredRows B i' +
                ((∑ i'', sumSquaredRows B i'') / ((n : ℝ) - 2)) /
                  (2 * ((n : ℝ) - 1))) j))) := by
    unfold frobInner
    exact Finset.sum_congr rfl fun i _ => Finset.sum_congr rfl fun j _ =>
      hprod i j
  rw [step1, offdiag_inner_expansion (A * Aᵀ) (B * Bᵀ) _ _
    (mul_transpose_rowsum A hA) (mul_transpose_colsum A hA)
    (mul_transpose_rowsum B hB) (mul_transpose_colsum B hB)]
  have e1 : (∑ i, ∑ j, (A * Aᵀ) i j * (B * Bᵀ) i j) = frobNormSq (Aᵀ * B) :=
    frobInner_mul_transpose A B
  have e2 : (∑ i, (A * Aᵀ) i i * (B * Bᵀ) i i) =
      ∑ i, sumSquaredRows A i * sumSquaredRows B i :=
    Finset.sum_congr rfl fun i _ => by
      rw [mul_transpose_apply A i i, mul_transpose_apply B i i]
      rfl
  have e3 : (∑ i, (A * Aᵀ) i i * (-1 / ((n : ℝ) - 2) * sumSquaredRows B i +
        ((∑ i', sumSquaredRows B i') / ((n : ℝ) - 2)) /
          (2 * ((n : ℝ) - 1)))) =
      ∑ i, sumSquaredRows A i * (-1 / ((n : ℝ) - 2) * sumSquaredRows B i +
        ((∑ i', sumSquaredRows B i') / ((n : ℝ) - 2)) /
          (2 * ((n : ℝ) - 1))) :=
    Finset.sum_congr rfl fun i _ => by
      rw [mul_transpose_apply A i i]
      rfl
  have e4 : (∑ i, (-1 / ((n : ℝ) - 2) * sumSquaredRows A i +
        ((∑ i', sumSquaredRows A i') / ((n : ℝ) - 2)) /
          (2 * ((n : ℝ) - 1))) * (B * Bᵀ) i i) =
      ∑ i, sumSquaredRows B i * (-1 / ((n : ℝ) - 2) * sumSquaredRows A i +
        ((∑ i', sumSquaredRows A i') / ((n : ℝ) - 2)) /
          (2 * ((n : ℝ) - 1))) :=
    Finset.sum_congr rfl fun i _ => by
      rw [mul_transpose_apply B i i]
      show _ * sumSquaredRows B i = _
      exact mul_comm _ _
  have e5 : (∑ i, sumSquaredRows B i * sumSquaredRows A i) =
      ∑ i, sumSquaredRows A i * sumSquaredRows B i :=
    Finset.sum_congr rfl fun i _ => mul_comm _ _
  rw [e1, e2, e3, e4]
  rw [sum_affine_mul (sumSquaredRows A) (sumSquaredRows B),
    sum_affine (sumSquaredRows A), sum_affine (sumSquaredRows B),
    sum_mul_affine (sumSquaredRows A) (sumSquaredRows B),
    sum_mul_affine (sumSquaredRows B) (sumSquaredRows A), e5]
  unfold debiased_dot_product_similarity_helper
  field_simp
  ring

/-! ## C1: equivalence of Gram-based and feature-space linear CKA -/

/-- C1: for feature matrices with `N > 3` rows and either value of the
`debiased` flag, the Gram-based CKA of the linear-kernel Gram matrices
returns exactly the feature-space linear CKA: the two computations are
equal in exact arithmetic. -/
theorem cka_gram_linear_eq_feature_space {n dx dy : ℕ}
    (X : Matrix (Fin n) (Fin dx) ℝ) (Y : Matrix (Fin n) (Fin dy) ℝ)
    (b : Bool) (hn : 3 < n) :
    cka (gram_linear X) (gram_linear Y) b =
      Except.ok (feature_space_linear_cka X Y b) := by
  have hnr : (3 : ℝ) < (n : ℝ) := by exact_mod_cast hn
  have hn0 : (n : ℝ) ≠ 0 := by
    intro h
    rw [h] at hnr
    linarith
  have h2 : (n : ℝ) - 2 ≠ 0 :=
    sub_ne_zero.mpr fun h => by rw [h] at hnr; linarith
  have h1 : (n : ℝ) - 1 ≠ 0 :=
    sub_ne_zero.mpr fun h => by rw [h] at hnr; linarith
  have hsq : ∀ {a c : ℕ} (M : Matrix (Fin a) (Fin c) ℝ),
      frobNorm M ^ 2 = frobNormSq M :=
    fun M => Real.sq_sqrt (frobNormSq_nonneg M)
  unfold cka center_gram
  rw [if_pos (gram_linear_isSymm X), if_pos (gram_linear_isSymm Y)]
  cases b with
  | false =>
    have hfslc : feature_space_linear_cka X Y false =
        frobNorm ((centerFeatures X)ᵀ * centerFeatures Y) ^ 2 /
          (frobNorm ((centerFeatures X)ᵀ * centerFeatures X) *
            frobNorm ((centerFeatures Y)ᵀ * centerFeatures Y)) := rfl
    show Except.ok (frobInner (centerGramBiased (gram_linear X))
        (centerGramBiased (gram_linear Y)) /
        (frobNorm (centerGramBiased (gram_linear X)) *
          frobNorm (centerGramBiased (gram_linear Y)))) =
      Except.ok (feature_space_linear_cka X Y false)
    refine congrArg Except.ok ?_
    rw [hfslc, centerGramBiased_gram_linear X hn0,
      centerGramBiased_gram_linear Y hn0,
      hsq ((centerFeatures X)ᵀ * centerFeatures Y),
      frobInner_mul_transpose (centerFeatures X) (centerFeatures Y)]
    have hdenX : frobNorm (centerFeatures X * (centerFeatures X)ᵀ) =
        frobNorm ((centerFeatures X)ᵀ * centerFeatures X) := by
      unfold frobNorm
      rw [frobNormSq_gram_feature]
    have hdenY : frobNorm (centerFeatures Y * (centerFeatures Y)ᵀ) =
        frobNorm ((centerFeatures Y)ᵀ * centerFeatures Y) := by
      unfold frobNorm
      rw [frobNormSq_gram_feature]
    rw [hdenX, hdenY]
  | true =>
    have hfslc : feature_space_linear_cka X Y true =
        debiased_dot_product_similarity_helper
            (frobNorm ((centerFeatures X)ᵀ * centerFeatures Y) ^ 2)
            (sumSquaredRows (centerFeatures X))
            (sumSquaredRows (centerFeatures Y))
            (∑ i, sumSquaredRows (centerFeatures X) i)
            (∑ i, sumSquaredRows (centerFeatures Y) i) n /
          (Real.sqrt (debiased_dot_product_similarity_helper
              (frobNorm ((centerFeatures X)ᵀ * centerFeatures X) ^ 2)
              (sumSquaredRows (centerFeatures X))
              (sumSquaredRows (centerFeatures X))
              (∑ i, sumSquaredRows (centerFeatures X) i)
              (∑ i, sumSquaredRows (centerFeatures X) i) n) *
            Real.sqrt (debiased_dot_product_similarity_helper
              (frobNorm ((centerFeatures Y)ᵀ * centerFeatures Y) ^ 2)
              (sumSquaredRows (centerFeatures Y))
              (sumSquaredRows (centerFeatures Y))
              (∑ i, sumSquaredRows (centerFeatures Y) i)
              (∑ i, sumSquaredRows (centerFeatures Y) i) n)) := rfl
    show Except.ok (frobInner (centerGramUnbiased (gram_linear X))
        (centerGramUnbiased (gram_linear Y)) /
        (frobNorm (centerGramUnbiased (gram_linear X)) *
          frobNorm (centerGramUnbiased (gram_linear Y)))) =
      Except.ok (feature_space_linear_cka X Y true)
    refine congrArg Except.ok ?_
    rw [hfslc, ← centerGramUnbiased_gram_eq X h2 h1,
      ← centerGramUnbiased_gram_eq Y h2 h1,
      hsq ((centerFeatures X)ᵀ * centerFeatures Y),
      hsq ((centerFeatures X)ᵀ * centerFeatures X),
      hsq ((centerFeatures Y)ᵀ * centerFeatures Y),
      frobInner_centerGramUnbiased_features (centerFeatures X)
        (centerFeatures Y) (centerFeatures_colsum X hn0)
        (centerFeatures_colsum Y hn0) h2 h1]
    have hnormX : frobNorm
        (centerGramUnbiased (centerFeatures X * (centerFeatures X)ᵀ)) =
        Real.sqrt (debiased_dot_product_similarity_helper
          (frobNormSq ((centerFeatures X)ᵀ * centerFeatures X))
          (sumSquaredRows (centerFeatures X))
          (sumSquaredRows (centerFeatures X))
          (∑ i, sumSquaredRows (centerFeatures X) i)
          (∑ i, sumSquaredRows (centerFeatures X) i) n) := by
      unfold frobNorm
      rw [show frobNormSq
            (centerGramUnbiased (centerFeatures X * (centerFeatures X)ᵀ)) =
          debiased_dot_product_similarity_helper
            (frobNormSq ((centerFeatures X)ᵀ * centerFeatures X))
            (sumSquaredRows (centerFeatures X))
            (sumSquaredRows (centerFeatures X))
            (∑ i, sumSquaredRows (centerFeatures X) i)
            (∑ i, sumSquaredRows (centerFeatures X) i) n from
        frobInner_centerGramUnbiased_features (centerFeatures X)
          (centerFeatures X) (centerFeatures_colsum X hn0)
          (centerFeatures_colsum X hn0) h2 h1]
    have hnormY : frobNorm
        (centerGramUnbiased (centerFeatures Y * (centerFeatures Y)ᵀ)) =
        Real.sqrt (debiased_dot_product_similarity_helper
          (frobNormSq ((centerFeatures Y)ᵀ * centerFeatures Y))
          (sumSquaredRows (centerFeatures Y))
          (sumSquaredRows (centerFeatures Y))
          (∑ i, sumSquaredRows (centerFeatures Y) i)
          (∑ i, sumSquaredRows (centerFeatures Y) i) n) := by
      unfold frobNorm
      rw [show frobNormSq
            (centerGramUnbiased (centerFeatures Y * (centerFeatures Y)ᵀ)) =
          debiased_dot_product_similarity_helper
            (frobNormSq ((centerFeatures Y)ᵀ * centerFeatures Y))
            (sumSquaredRows (centerFeatures Y))
            (sumSquaredRows (centerFeatures Y))
            (∑ i, sumSquaredRows (centerFeatures Y) i)
            (∑ i, sumSquaredRows (centerFeatures Y) i) n from
        frobInner_centerGramUnbiased_features (centerFeatures Y)
          (centerFeatures Y) (centerFeatures_colsum Y hn0)
          (centerFeatures_colsum Y hn0) h2 h1]
    rw [hnormX, hnormY]

/-- Witness for C1 at concrete single-column feature matrices with four rows
in debiased mode. -/
theorem cka_gram_linear_eq_feature_space_witness :
    3 < 4 ∧
    cka (gram_linear !![(1 : ℝ); 0; 2; 1]) (gram_linear !![(0 : ℝ); 1; 1; 3])
        true =
      Except.ok (feature_space_linear_cka !![(1 : ℝ); 0; 2; 1]
        !![(0 : ℝ); 1; 1; 3] true) :=
  ⟨by decide, cka_gram_linear_eq_feature_space _ _ true (by decide)⟩

/-! ## C8: an untyped model observing numpy shape behavior

Matrices here are lists of row lists, so that calls whose operands have
mismatched dimensions can be expressed.  Each numpy primitive that enforces
operand shapes (the flattened dot product) reports its own error; the
centering steps are built with `List.range` over the row count, as
broadcasting never fails for the per-matrix operations of `center_gram` on a
square input. -/

/-- Entry of an untyped matrix, defaulting to zero out of range. -/
def entryU (M : List (List ℝ)) (i j : ℕ) : ℝ := (M.getD i []).getD j 0

/-- Number of rows of an untyped matrix. -/
def numRowsU (M : List (List ℝ)) : ℕ := M.length

/-- Number of columns of an untyped matrix (length of the first row). -/
def numColsU (M : List (List ℝ)) : ℕ := (M.headD []).length

/-- Transpose of an untyped matrix. -/
def transposeU (M : List (List ℝ)) : List (List ℝ) :=
  (List.range (numColsU M)).map fun j =>
    (List.range (numRowsU M)).map fun i => entryU M i j

/-- Biased centering on the untyped representation. -/
def centerGramBiasedU (M : List (List ℝ)) : List (List ℝ) :=
  let n := numRowsU M
  let means : ℕ → ℝ := fun j =>
    (((List.range n).map fun i => entryU M i j).sum) / n
  let meanAdj : ℝ := ((((List.range n).map fun j => means j).sum) / n) / 2
  let means2 : ℕ → ℝ := fun j => means j - meanAdj
  (List.range n).map fun i =>
    (List.range n).map fun j => entryU M i j - means2 i - means2 j

/-- Unbiased centering on the untyped representation. -/
def centerGramUnbiasedU (M : List (List ℝ)) : List (List ℝ) :=
  let n := numRowsU M
  let z : ℕ → ℕ → ℝ := fun i j => if i = j then 0 else entryU M i j
  let means : ℕ → ℝ := fun j =>
    (((List.range n).map fun i => z i j).sum) / ((n : ℝ) - 2)
  let means2 : ℕ → ℝ := fun j =>
    means j - (((List.range n).map fun j' => means j').sum) /
      (2 * ((n : ℝ) - 1))
  (List.range n).map fun i =>
    (List.range n).map fun j =>
      if i = j then 0 else z i j - means2 i - means2 j

/-- Untyped `center_gram`: symmetry check, then centering. -/
def center_gramU (M : List (List ℝ)) (unbiased : Bool) :
    Except String (List (List ℝ)) :=
  if transposeU M = M then
    Except.ok (if unbiased then centerGramUnbiasedU M else centerGramBiasedU M)
  else
    Except.error notSymmetricMsg

/-- Row-major flattening, as `np.ravel`. -/
def ravelU (M : List (List ℝ)) : List ℝ := M.flatten

/-- Dot product of flattened arrays; numpy raises a shape error when the
lengths differ. -/
def dotU (a b : List ℝ) : Except String ℝ :=
  if a.length = b.length then
    Except.ok (List.zipWith (fun x y => x * y) a b).sum
  else
    Except.error "shapes not aligned"

/-- Frobenius norm on the untyped representation. -/
def normU (M : List (List ℝ)) : ℝ :=
  Real.sqrt (((ravelU M).map fun x => x * x).sum)

/-- Untyped `cka` over list matrices, mirroring the order of operations of
the source: center both inputs, then take the flattened dot product, then
normalize. -/
def ckaU (gx gy : List (List ℝ)) (debiased : Bool) : Except String ℝ := do
  let cx ← center_gramU gx debiased
  let cy ← center_gramU gy debiased
  let s ← dotU (ravelU cx) (ravelU cy)
  return s / (normU cx * normU cy)

lemma ravel_center_length_aux (n : ℕ) (f : ℕ → ℕ → ℝ) :
    (List.map (List.length ∘ fun i => (List.range n).map fun j => f i j)
      (List.range n)).sum = n * n := by
  have h1 : List.map (List.length ∘ fun i =>
        (List.range n).map fun j => f i j) (List.range n)
      = List.map (fun _ => n) (List.range n) :=
    List.map_congr_left fun i _ => by simp [Function.comp]
  rw [h1, show (fun _ : ℕ => n) = Function.const ℕ n from rfl,
    List.map_const, List.sum_replicate, List.length_range, smul_eq_mul]

lemma ravel_centerGramBiasedU_length (M : List (List ℝ)) :
    (ravelU (centerGramBiasedU M)).length = numRowsU M * numRowsU M := by
  unfold ravelU centerGramBiasedU
  rw [List.length_flatten, List.map_map, ravel_center_length_aux]

lemma ravel_centerGramUnbiasedU_length (M : List (List ℝ)) :
    (ravelU (centerGramUnbiasedU M)).length = numRowsU M * numRowsU M := by
  unfold ravelU centerGramUnbiasedU
  rw [List.length_flatten, List.map_map, ravel_center_length_aux]

/-- C8 counterexample: for the 2-by-2 and 3-by-3 identity Gram matrices,
`cka` does fail with a shape error, but only after the centering of both
inputs has already run to completion — computation on the inputs proceeds
before the failure, contrary to the claim. -/
theorem cka_shape_error_after_centering :
    (∃ cx, center_gramU [[(1 : ℝ), 0], [0, 1]] false = Except.ok cx) ∧
    (∃ cy, center_gramU [[(1 : ℝ), 0, 0], [0, 1, 0], [0, 0, 1]] false =
      Except.ok cy) ∧
    ckaU [[(1 : ℝ), 0], [0, 1]] [[(1 : ℝ), 0, 0], [0, 1, 0], [0, 0, 1]]
        false =
      Except.error "shapes not aligned" := by
  have hx : transposeU [[(1 : ℝ), 0], [0, 1]] = [[(1 : ℝ), 0], [0, 1]] := rfl
  have hy : transposeU [[(1 : ℝ), 0, 0], [0, 1, 0], [0, 0, 1]] =
      [[(1 : ℝ), 0, 0], [0, 1, 0], [0, 0, 1]] := rfl
  have h2 : center_gramU [[(1 : ℝ), 0], [0, 1]] false =
      Except.ok (centerGramBiasedU [[(1 : ℝ), 0], [0, 1]]) := by
    unfold center_gramU
    rw [if_pos hx]
    rfl
  have h3 : center_gramU [[(1 : ℝ), 0, 0], [0, 1, 0], [0, 0, 1]] false =
      Except.ok (centerGramBiasedU [[(1 : ℝ), 0, 0], [0, 1, 0], [0, 0, 1]]) := by
    unfold center_gramU
    rw [if_pos hy]
    rfl
  refine ⟨⟨_, h2⟩, ⟨_, h3⟩, ?_⟩
  unfold ckaU
  rw [h2, h3]
  rfl

/-- C8 amended: with two square symmetric Gram matrices of different sizes,
`cka` centers each input successfully and only then fails with the shape
error raised by the flattened dot product of the mismatched centered
matrices. -/
theorem cka_shape_error_location (gx gy : List (List ℝ)) (b : Bool)
    (hx : transposeU gx = gx) (hy : transposeU gy = gy)
    (hne : numRowsU gx ≠ numRowsU gy) :
    (∃ cx, center_gramU gx b = Except.ok cx) ∧
    (∃ cy, center_gramU gy b = Except.ok cy) ∧
    ckaU gx gy b = Except.error "shapes not aligned" := by
  have hcx : center_gramU gx b = Except.ok
      (if b then centerGramUnbiasedU gx else centerGramBiasedU gx) := by
    unfold center_gramU
    rw [if_pos hx]
  have hcy : center_gramU gy b = Except.ok
      (if b then centerGramUnbiasedU gy else centerGramBiasedU gy) := by
    unfold center_gramU
    rw [if_pos hy]
  have hlenx : (ravelU (if b then centerGramUnbiasedU gx
      else centerGramBiasedU gx)).length = numRowsU gx * numRowsU gx := by
    cases b
    · exact ravel_centerGramBiasedU_length gx
    · exact ravel_centerGramUnbiasedU_length gx
  have hleny : (ravelU (if b then centerGramUnbiasedU gy
      else centerGramBiasedU gy)).length = numRowsU gy * numRowsU gy := by
    cases b
    · exact ravel_centerGramBiasedU_length gy
    · exact ravel_centerGramUnbiasedU_length gy
  have hdot : dotU (ravelU (if b then centerGramUnbiasedU gx
      else centerGramBiasedU gx)) (ravelU (if b then centerGramUnbiasedU gy
      else centerGramBiasedU gy)) = Except.error "shapes not aligned" := by
    unfold dotU
    rw [if_neg]
    intro hlen
    rw [hlenx, hleny] at hlen
    exact hne (Nat.mul_self_inj.mp hlen)
  refine ⟨⟨_, hcx⟩, ⟨_, hcy⟩, ?_⟩
  unfold ckaU
  rw [hcx, hcy]
  show (dotU (ravelU (if b then centerGramUnbiasedU gx
      else centerGramBiasedU gx)) (ravelU (if b then centerGramUnbiasedU gy
      else centerGramBiasedU gy))).bind _ = Except.error "shapes not aligned"
  rw [hdot]
  rfl

/-- Witness for the amended C8 at the 2-by-2 and 3-by-3 identity Gram
matrices in biased mode. -/
theorem cka_shape_error_location_witness :
    transposeU [[(1 : ℝ), 0], [0, 1]] = [[(1 : ℝ), 0], [0, 1]] ∧
    transposeU [[(1 : ℝ), 0, 0], [0, 1, 0], [0, 0, 1]] =
      [[(1 : ℝ), 0, 0], [0, 1, 0], [0, 0, 1]] ∧
    numRowsU [[(1 : ℝ), 0], [0, 1]] ≠
      numRowsU [[(1 : ℝ), 0, 0], [0, 1, 0], [0, 0, 1]] ∧
    ckaU [[(1 : ℝ), 0], [0, 1]] [[(1 : ℝ), 0, 0], [0, 1, 0], [0, 0, 1]]
        false =
      Except.error "shapes not aligned" :=
  ⟨rfl, rfl, by decide,
    (cka_shape_error_location _ _ false rfl rfl (by decide)).2.2⟩

end RepSim

end
